import Mathlib

/-!
Verification of the command protocol and interpreter of `run.py`
(repository `mmadc0der/Researcher`).

Strings are embedded as `List Char`.  The in-memory note store
(`CommandProcessor.notes`, a Python dict used append-only) is embedded as an
association list in insertion order.  Python `str.strip()` and the regular
expressions of `run.py` are embedded by executable functions on `List Char`;
ASCII whitespace and ASCII case folding model Python's behaviour on the
ASCII-only protocol literals involved.
-/

namespace Researcher

/-- Whitespace characters stripped by Python `str.strip()` / matched by `\s`
(ASCII part). -/
def isPySpace (c : Char) : Bool :=
  c == ' ' || c == '\t' || c == '\n' || c == '\r' || c == '\x0b' || c == '\x0c'

/-- Remove trailing whitespace (the right half of Python `str.strip()`). -/
def rstrip (s : List Char) : List Char :=
  (s.reverse.dropWhile isPySpace).reverse

/-- Python `str.strip()`: remove leading and trailing whitespace. -/
def pyStrip (s : List Char) : List Char :=
  rstrip (s.dropWhile isPySpace)

/-- The note store of `CommandProcessor` (`run.py` line 112): a name → text
mapping in insertion order. -/
abbrev Notes := List (List Char × List Char)

/-- Python `name in self.notes` (dict key membership). -/
def keyMem (n : List Char) : Notes → Bool
  | [] => false
  | p :: t => if p.1 = n then true else keyMem n t

/-- Python `self.notes[name]` (lookup of a present key). -/
def lookupNote (n : List Char) : Notes → Option (List Char)
  | [] => none
  | p :: t => if p.1 = n then some p.2 else lookupNote n t

/-- Drop an exact literal from the front of a string; `some r` iff the input
is the literal followed by `r`. -/
def dropLit : List Char → List Char → Option (List Char)
  | [], s => some s
  | _ :: _, [] => none
  | p :: ps, c :: cs => if p = c then dropLit ps cs else none

/-- The character class `[^"]` of the command regexes in `run.py`. -/
def notQuote (c : Char) : Bool := !(c == '"')

/-- Literal head of the add-note command regex (`run.py` line 118). -/
def addLit1 : List Char := "<add-note name=\"".data

/-- Literal between the two capture groups of the add-note regex: the closing
quote of `name` and ` text="`. -/
def addLit2 : List Char := '"' :: " text=\"".data

/-- Literal tail `"/>` closing the last quoted attribute of `add-note` and
`get-note`. -/
def quoteClose : List Char := '"' :: "/>".data

/-- Literal head of the get-note command regex (`run.py` line 134). -/
def getLit1 : List Char := "<get-note name=\"".data

/-- The exact literal `<get-notes/>` (`run.py` line 127). -/
def getNotesLit : List Char := "<get-notes/>".data

/-- Embeds `re.fullmatch(r'<add-note name="([^"]+)" text="([^"]*)"/>', s)`
(`run.py` line 118).  The greedy groups `[^"]+` / `[^"]*` cannot cross a
quote, so they are exactly `takeWhile notQuote`. -/
def matchAddNote (s : List Char) : Option (List Char × List Char) :=
  match dropLit addLit1 s with
  | none => none
  | some r =>
    let x := r.takeWhile notQuote
    let r1 := r.dropWhile notQuote
    if x = [] then none
    else
      match dropLit addLit2 r1 with
      | none => none
      | some r2 =>
        let y := r2.takeWhile notQuote
        let r3 := r2.dropWhile notQuote
        if r3 = quoteClose then some (x, y) else none

/-- Embeds `re.fullmatch(r'<get-note name="([^"]+)"/>', s)`
(`run.py` line 134). -/
def matchGetNote (s : List Char) : Option (List Char) :=
  match dropLit getLit1 s with
  | none => none
  | some r =>
    let x := r.takeWhile notQuote
    let r1 := r.dropWhile notQuote
    if x = [] then none
    else if r1 = quoteClose then some x else none

/-- The command variants recognized by `CommandProcessor.process_command`
(`run.py` lines 114-145): the three regex forms tried in order, and the
malformed fallthrough. -/
inductive Command where
  | addNote (name text : List Char)
  | getNotes
  | getNote (name : List Char)
  | malformed
deriving DecidableEq

/-- Classification of a (stripped) command string, mirroring the cascade of
`re.fullmatch` attempts in `process_command`. -/
def parseCommand (s : List Char) : Command :=
  match matchAddNote s with
  | some (n, t) => .addNote n t
  | none =>
    if s = getNotesLit then .getNotes
    else
      match matchGetNote s with
      | some n => .getNote n
      | none => .malformed

/-- Python `text.replace(c, rep)` for a single-character pattern `c`
(`run.py` line 140: all five replacement patterns are single characters). -/
def replaceChar (c : Char) (rep : List Char) : List Char → List Char
  | [] => []
  | a :: t => (if a = c then rep else [a]) ++ replaceChar c rep t

/-- The escaping chain of `run.py` line 140, applied in the source's exact
order: `&`→`&amp;`, `<`→`&lt;`, `>`→`&gt;`, `"`→`&quot;`, `'`→`&apos;`. -/
def escapeText (t : List Char) : List Char :=
  replaceChar '\x27' "&apos;".data
    (replaceChar '"' "&quot;".data
      (replaceChar '>' "&gt;".data
        (replaceChar '<' "&lt;".data
          (replaceChar '&' "&amp;".data t))))

/-- Per-character view of the escaping chain (proved equal to `escapeText`
below; not itself part of the source embedding). -/
def escChar (c : Char) : List Char :=
  if c = '&' then "&amp;".data
  else if c = '<' then "&lt;".data
  else if c = '>' then "&gt;".data
  else if c = '"' then "&quot;".data
  else if c = '\x27' then "&apos;".data
  else [c]

/-- Response `<note-added name="N"/>` (`run.py` line 124). -/
def noteAdded (n : List Char) : List Char :=
  "<note-added name=\"".data ++ n ++ "\"/>".data

/-- Response `<error reason="Note name 'N' already exists."/>`
(`run.py` line 122). -/
def dupError (n : List Char) : List Char :=
  "<error reason=\"Note name \x27".data ++ n ++ "\x27 already exists.\"/>".data

/-- Response `<notes-list names=""/>` for an empty store (`run.py` line 129). -/
def emptyListResp : List Char := "<notes-list names=\"\"/>".data

/-- Response `<notes-list names="..."/>` (`run.py` line 131). -/
def notesListResp (ns : List Char) : List Char :=
  "<notes-list names=\"".data ++ ns ++ "\"/>".data

/-- Response `<note-content name="N" text="T"/>` (`run.py` line 141). -/
def noteContentResp (n t : List Char) : List Char :=
  "<note-content name=\"".data ++ n ++ "\" text=\"".data ++ t ++ "\"/>".data

/-- Response `<error reason="note_not_found"/>` (`run.py` line 143). -/
def noteNotFound : List Char := "<error reason=\"note_not_found\"/>".data

/-- Response `<error reason="Unknown or malformed command."/>`
(`run.py` line 145). -/
def malformedError : List Char :=
  "<error reason=\"Unknown or malformed command.\"/>".data

/-- Python `",".join(names)` (`run.py` line 131). -/
def joinComma : List (List Char) → List Char
  | [] => []
  | [x] => x
  | x :: xs => x ++ ',' :: joinComma xs

/-- `CommandProcessor.process_command` (`run.py` lines 114-145): strips the
input, classifies it, executes it against the store, and returns the response
string together with the (possibly updated) store. -/
def process_command (input : List Char) (notes : Notes) : List Char × Notes :=
  match parseCommand (pyStrip input) with
  | .addNote name text =>
    if keyMem name notes then (dupError name, notes)
    else (noteAdded name, notes ++ [(name, text)])
  | .getNotes =>
    if notes = [] then (emptyListResp, notes)
    else (notesListResp (joinComma (notes.map Prod.fst)), notes)
  | .getNote name =>
    match lookupNote name notes with
    | some t => (noteContentResp name (escapeText t), notes)
    | none => (noteNotFound, notes)
  | .malformed => (malformedError, notes)

/-!
Spec-side definitions for the escaping claims.  `unescapeText` is modelled
from the spec's words ("applying the inverse unescape recovers the original
text exactly"); `wellEscaped` is modelled from "contains no raw occurrence of
those characters outside their escaped forms".
-/

/-- Modelled from the spec: the inverse unescape of the XML escaping rule,
decoding `&amp; &lt; &gt; &quot; &apos;` back to `& < > " '`. -/
def unescapeText : List Char → List Char
  | [] => []
  | c :: rest =>
    if c = '&' then
      match rest with
      | 'a' :: 'm' :: 'p' :: ';' :: r => '&' :: unescapeText r
      | 'l' :: 't' :: ';' :: r => '<' :: unescapeText r
      | 'g' :: 't' :: ';' :: r => '>' :: unescapeText r
      | 'q' :: 'u' :: 'o' :: 't' :: ';' :: r => '"' :: unescapeText r
      | 'a' :: 'p' :: 'o' :: 's' :: ';' :: r => '\x27' :: unescapeText r
      | r => '&' :: unescapeText r
    else c :: unescapeText rest

/-- Modelled from the spec: the string contains no raw occurrence of
`& < > " '` outside the five escaped entity forms — every `&` begins one of
the entities, and `< > " '` never occur at all. -/
def wellEscaped : List Char → Bool
  | [] => true
  | c :: rest =>
    if c = '&' then
      match rest with
      | 'a' :: 'm' :: 'p' :: ';' :: r => wellEscaped r
      | 'l' :: 't' :: ';' :: r => wellEscaped r
      | 'g' :: 't' :: ';' :: r => wellEscaped r
      | 'q' :: 'u' :: 'o' :: 't' :: ';' :: r => wellEscaped r
      | 'a' :: 'p' :: 'o' :: 's' :: ';' :: r => wellEscaped r
      | _ => false
    else if c = '<' || c = '>' || c = '"' || c = '\x27' then false
    else wellEscaped rest

/-!
Turn post-processing of `main_agent_environment` (`run.py` lines 169-200).
-/

/-- ASCII case-insensitive character comparison (`re.IGNORECASE` on the
ASCII-only literals `<think>`, `</think>`, `assistant>`). -/
def ciEq (a b : Char) : Bool := a.toLower = b.toLower

/-- Drop a literal case-insensitively from the front of a string. -/
def dropLitCI : List Char → List Char → Option (List Char)
  | [], s => some s
  | _ :: _, [] => none
  | p :: ps, c :: cs => if ciEq p c then dropLitCI ps cs else none

/-- The literal `<think>`. -/
def thinkOpen : List Char := "<think>".data

/-- The literal `</think>`. -/
def thinkClose : List Char := "</think>".data

/-- Remainder after the first case-insensitive occurrence of `</think>`
(the lazy `.*?</think>` of the think-strip regex finds the first closing
tag). -/
def findClose : List Char → Option (List Char)
  | [] => none
  | c :: rest =>
    match dropLitCI thinkClose (c :: rest) with
    | some r => some r
    | none => findClose rest

/-- Whether a case-insensitive occurrence of `pat` appears anywhere in the
string. -/
def hasOccurCI (pat : List Char) : List Char → Bool
  | [] => (dropLitCI pat []).isSome
  | c :: rest => (dropLitCI pat (c :: rest)).isSome || hasOccurCI pat rest

/-- Embeds `re.sub(r"^\s*<think>.*?</think>\s*", "", s, flags=DOTALL|IGNORECASE)`
(`run.py` line 170): remove one leading reasoning block if present, else
return the input unchanged. -/
def stripThink (s : List Char) : List Char :=
  match dropLitCI thinkOpen (s.dropWhile isPySpace) with
  | none => s
  | some r =>
    match findClose r with
    | none => s
    | some r2 => r2.dropWhile isPySpace

/-- `run.py` line 170 in full: `re.sub(..., llm_full_output.strip()).strip()`. -/
def normalizeOutput (raw : List Char) : List Char :=
  pyStrip (stripThink (pyStrip raw))

/-- Embeds `re.match(r"^\s*assistant>\s*", s, flags=IGNORECASE)`
(`run.py` line 176). -/
def hasAssistantMarker (s : List Char) : Bool :=
  (dropLitCI "assistant>".data (s.dropWhile isPySpace)).isSome

/-- The fixed protocol-violation response (`run.py` line 198). -/
def invalidFormatError : List Char :=
  ("<error reason=\"Invalid command format: Do not include \x27assistant>\x27 "
    ++ "prefix. Output only the command itself.\"/>").data

/-- One turn of `main_agent_environment` (`run.py` lines 169-200) as far as
the note store and the suggested system response are concerned: normalize the
raw model output, and either emit the fixed format-violation error (marker
present, interpreter not invoked) or run the interpreter. -/
def runTurn (raw : List Char) (notes : Notes) : List Char × Notes :=
  let cmd := normalizeOutput raw
  if hasAssistantMarker cmd then (invalidFormatError, notes)
  else process_command cmd notes

/-!
The conversation log (`Conversation`, `run.py` lines 59-83) and the reset
path of the agent loop (`run.py` lines 208-212).
-/

/-- One conversation turn (an element of `Conversation.messages`). -/
structure Turn where
  role : String
  content : String
deriving DecidableEq

/-- The `elif` branch of `Conversation.clear` (`run.py` lines 75-76): keep
the current first turn if it is a system turn. -/
def keptSystem : List Turn → Option Turn
  | [] => none
  | m :: _ => if m.role = "system" then some m else none

/-- `Conversation.clear` (`run.py` lines 71-80).  Python's
`if new_system_prompt:` is truthiness: `None` and the empty string both fall
through to the kept-system branch. -/
def clearConv (messages : List Turn) (newSystemPrompt : Option String) : List Turn :=
  let spm : Option Turn :=
    match newSystemPrompt with
    | some p => if p.isEmpty then keptSystem messages else some ⟨"system", p⟩
    | none => keptSystem messages
  match spm with
  | some m => [m]
  | none => []

/-- The `clear` command of the agent loop (`run.py` lines 208-212): clear the
conversation and replace the `CommandProcessor` by a fresh one (empty note
store). -/
def resetSession (messages : List Turn) (_notes : Notes)
    (newSystemPrompt : Option String) : List Turn × Notes :=
  (clearConv messages newSystemPrompt, ([] : Notes))

/-!
Well-formed command strings (spec §4.1 grammar) and store invariant.
-/

/-- The well-formed add-note command `<add-note name="N" text="T"/>`. -/
def addForm (n t : List Char) : List Char :=
  addLit1 ++ n ++ addLit2 ++ t ++ quoteClose

/-- The well-formed get-note command `<get-note name="N"/>`. -/
def getForm (n : List Char) : List Char :=
  getLit1 ++ n ++ quoteClose

/-- Store invariant: note names are pairwise distinct, non-empty, and contain
no double quote. -/
def storeInv (st : Notes) : Prop :=
  (st.map Prod.fst).Nodup ∧ ∀ p ∈ st, p.1 ≠ [] ∧ '"' ∉ p.1

/-- Executing a sequence of add-note commands in order, starting from a given
store. -/
def addAll (l : List (List Char × List Char)) (st : Notes) : Notes :=
  l.foldl (fun acc p => (process_command (addForm p.1 p.2) acc).2) st

/-! ### Helper lemmas: literal dropping and quote scanning -/

theorem dropLit_some_iff (p : List Char) : ∀ (s r : List Char),
    dropLit p s = some r ↔ s = p ++ r := by
  induction p with
  | nil => intro s r; simp [dropLit]
  | cons a ps ih =>
    intro s r
    cases s with
    | nil => simp [dropLit]
    | cons c cs =>
      by_cases h : a = c
      · subst h
        simp [dropLit, ih]
      · simp only [dropLit, if_neg h]
        constructor
        · intro hc; cases hc
        · intro hc
          rw [List.cons_append] at hc
          exact absurd (List.head_eq_of_cons_eq hc).symm h

theorem notQuote_eq_true {c : Char} : notQuote c = true ↔ c ≠ '"' := by
  simp [notQuote]

theorem takeWhile_append_stop (p : Char → Bool) (u : List Char) (a : Char)
    (v : List Char) (hu : ∀ c ∈ u, p c = true) (ha : p a = false) :
    (u ++ a :: v).takeWhile p = u := by
  induction u with
  | nil => simp [List.takeWhile_cons, ha]
  | cons c u' ih =>
    have hc : p c = true := hu c (by simp)
    simp only [List.cons_append, List.takeWhile_cons, hc, if_true]
    rw [ih (fun d hd => hu d (by simp [hd]))]

theorem dropWhile_append_stop (p : Char → Bool) (u : List Char) (a : Char)
    (v : List Char) (hu : ∀ c ∈ u, p c = true) (ha : p a = false) :
    (u ++ a :: v).dropWhile p = a :: v := by
  induction u with
  | nil => simp [List.dropWhile_cons, ha]
  | cons c u' ih =>
    have hc : p c = true := hu c (by simp)
    simp only [List.cons_append, List.dropWhile_cons, hc, if_true]
    exact ih (fun d hd => hu d (by simp [hd]))

/-! ### Characterization of the command regex matchers -/

theorem matchAddNote_some_iff (s x y : List Char) :
    matchAddNote s = some (x, y) ↔
      s = addForm x y ∧ x ≠ [] ∧ '"' ∉ x ∧ '"' ∉ y := by
  constructor
  · intro h
    unfold matchAddNote at h
    cases hd : dropLit addLit1 s with
    | none => rw [hd] at h; cases h
    | some r =>
      rw [hd] at h
      simp only at h
      by_cases hx : r.takeWhile notQuote = []
      · rw [if_pos hx] at h; cases h
      · rw [if_neg hx] at h
        cases hd2 : dropLit addLit2 (r.dropWhile notQuote) with
        | none => rw [hd2] at h; cases h
        | some r2 =>
          rw [hd2] at h
          simp only at h
          by_cases h3 : r2.dropWhile notQuote = quoteClose
          · rw [if_pos h3] at h
            rw [Option.some.injEq, Prod.mk.injEq] at h
            obtain ⟨hx2, hy2⟩ := h
            have hs : s = addLit1 ++ r := (dropLit_some_iff _ _ _).mp hd
            have hr2 : r.dropWhile notQuote = addLit2 ++ r2 :=
              (dropLit_some_iff _ _ _).mp hd2
            have e2 : r2 = y ++ quoteClose := by
              conv_lhs => rw [← List.takeWhile_append_dropWhile notQuote r2]
              rw [hy2, h3]
            have e1 : r = x ++ (addLit2 ++ (y ++ quoteClose)) := by
              conv_lhs => rw [← List.takeWhile_append_dropWhile notQuote r]
              rw [hx2, hr2, e2]
            refine ⟨?_, ?_, ?_, ?_⟩
            · rw [hs, e1]; simp [addForm, List.append_assoc]
            · rw [← hx2]; exact hx
            · intro hmem
              rw [← hx2] at hmem
              have := List.mem_takeWhile_imp hmem
              simp [notQuote] at this
            · intro hmem
              rw [← hy2] at hmem
              have := List.mem_takeWhile_imp hmem
              simp [notQuote] at this
          · rw [if_neg h3] at h; cases h
  · rintro ⟨rfl, hx, hqx, hqy⟩
    have hux : ∀ c ∈ x, notQuote c = true :=
      fun c hc => notQuote_eq_true.mpr (fun e => hqx (e ▸ hc))
    have huy : ∀ c ∈ y, notQuote c = true :=
      fun c hc => notQuote_eq_true.mpr (fun e => hqy (e ▸ hc))
    have hd : dropLit addLit1 (addForm x y)
        = some (x ++ (addLit2 ++ (y ++ quoteClose))) :=
      (dropLit_some_iff _ _ _).mpr (by simp [addForm, List.append_assoc])
    unfold matchAddNote
    rw [hd]
    simp only
    rw [show x ++ (addLit2 ++ (y ++ quoteClose))
        = x ++ '"' :: (" text=\"".data ++ (y ++ quoteClose)) from rfl]
    rw [takeWhile_append_stop notQuote x '"' _ hux (by decide),
      dropWhile_append_stop notQuote x '"' _ hux (by decide)]
    rw [if_neg hx]
    rw [show ('"' :: (" text=\"".data ++ (y ++ quoteClose)))
        = addLit2 ++ (y ++ quoteClose) from rfl]
    rw [show dropLit addLit2 (addLit2 ++ (y ++ quoteClose))
        = some (y ++ quoteClose) from (dropLit_some_iff _ _ _).mpr rfl]
    simp only
    rw [show y ++ quoteClose = y ++ '"' :: "/>".data from rfl]
    rw [takeWhile_append_stop notQuote y '"' _ huy (by decide),
      dropWhile_append_stop notQuote y '"' _ huy (by decide)]
    rw [if_pos (show ('"' :: "/>".data : List Char) = quoteClose from rfl)]

theorem matchGetNote_some_iff (s x : List Char) :
    matchGetNote s = some x ↔ s = getForm x ∧ x ≠ [] ∧ '"' ∉ x := by
  constructor
  · intro h
    unfold matchGetNote at h
    cases hd : dropLit getLit1 s with
    | none => rw [hd] at h; cases h
    | some r =>
      rw [hd] at h
      simp only at h
      by_cases hx : r.takeWhile notQuote = []
      · rw [if_pos hx] at h; cases h
      · rw [if_neg hx] at h
        by_cases h3 : r.dropWhile notQuote = quoteClose
        · rw [if_pos h3] at h
          rw [Option.some.injEq] at h
          have hs : s = getLit1 ++ r := (dropLit_some_iff _ _ _).mp hd
          have e1 : r = x ++ quoteClose := by
            conv_lhs => rw [← List.takeWhile_append_dropWhile notQuote r]
            rw [h, h3]
          refine ⟨?_, ?_, ?_⟩
          · rw [hs, e1]; simp [getForm, List.append_assoc]
          · rw [← h]; exact hx
          · intro hmem
            rw [← h] at hmem
            have := List.mem_takeWhile_imp hmem
            simp [notQuote] at this
        · rw [if_neg h3] at h; cases h
  · rintro ⟨rfl, hx, hqx⟩
    have hux : ∀ c ∈ x, notQuote c = true :=
      fun c hc => notQuote_eq_true.mpr (fun e => hqx (e ▸ hc))
    have hd : dropLit getLit1 (getForm x) = some (x ++ quoteClose) :=
      (dropLit_some_iff _ _ _).mpr (by simp [getForm, List.append_assoc])
    unfold matchGetNote
    rw [hd]
    simp only
    rw [show x ++ quoteClose = x ++ '"' :: "/>".data from rfl]
    rw [takeWhile_append_stop notQuote x '"' _ hux (by decide),
      dropWhile_append_stop notQuote x '"' _ hux (by decide)]
    rw [if_neg hx]
    rw [if_pos (show ('"' :: "/>".data : List Char) = quoteClose from rfl)]

/-! ### Characterization of the command classifier -/

theorem addLit1_ne_getLit1_ext (u v : List Char) : addLit1 ++ u ≠ getLit1 ++ v := by
  intro h
  have h1 : (addLit1 ++ u).get? 1 = some 'a' := rfl
  have h2 : (getLit1 ++ v).get? 1 = some 'g' := rfl
  rw [h, h2] at h1
  cases h1

theorem getLit1_ne_getNotesLit (u : List Char) : getLit1 ++ u ≠ getNotesLit := by
  intro h
  have h1 : (getLit1 ++ u).get? 9 = some ' ' := rfl
  rw [h] at h1
  cases h1

theorem addLit1_ne_getNotesLit (u : List Char) : addLit1 ++ u ≠ getNotesLit := by
  intro h
  have h1 : (addLit1 ++ u).get? 1 = some 'a' := rfl
  rw [h] at h1
  cases h1

theorem matchAddNote_getForm (x : List Char) : matchAddNote (getForm x) = none := by
  cases h : matchAddNote (getForm x) with
  | none => rfl
  | some p =>
    obtain ⟨hs, -, -, -⟩ := (matchAddNote_some_iff _ p.1 p.2).mp (by rw [h])
    have he : addLit1 ++ (p.1 ++ (addLit2 ++ (p.2 ++ quoteClose)))
        = getLit1 ++ (x ++ quoteClose) := by
      have h2 : addForm p.1 p.2 = getForm x := hs.symm
      simpa [addForm, getForm, List.append_assoc] using h2
    exact absurd he (addLit1_ne_getLit1_ext _ _)

theorem parseCommand_eq_addNote_iff (s x y : List Char) :
    parseCommand s = Command.addNote x y ↔
      s = addForm x y ∧ x ≠ [] ∧ '"' ∉ x ∧ '"' ∉ y := by
  rw [← matchAddNote_some_iff]
  constructor
  · intro h
    unfold parseCommand at h
    cases hm : matchAddNote s with
    | some p => rw [hm] at h; obtain ⟨p1, p2⟩ := p; cases h; rfl
    | none =>
      rw [hm] at h
      by_cases hg : s = getNotesLit
      · rw [if_pos hg] at h; cases h
      · rw [if_neg hg] at h
        cases hgn : matchGetNote s with
        | some n => rw [hgn] at h; cases h
        | none => rw [hgn] at h; cases h
  · intro h
    unfold parseCommand
    rw [h]

theorem parseCommand_eq_getNotes_iff (s : List Char) :
    parseCommand s = Command.getNotes ↔ s = getNotesLit := by
  constructor
  · intro h
    unfold parseCommand at h
    cases hm : matchAddNote s with
    | some p => rw [hm] at h; obtain ⟨p1, p2⟩ := p; cases h
    | none =>
      rw [hm] at h
      by_cases hg : s = getNotesLit
      · exact hg
      · rw [if_neg hg] at h
        cases hgn : matchGetNote s with
        | some n => rw [hgn] at h; cases h
        | none => rw [hgn] at h; cases h
  · rintro rfl
    decide

theorem parseCommand_eq_getNote_iff (s x : List Char) :
    parseCommand s = Command.getNote x ↔ s = getForm x ∧ x ≠ [] ∧ '"' ∉ x := by
  rw [← matchGetNote_some_iff]
  constructor
  · intro h
    unfold parseCommand at h
    cases hm : matchAddNote s with
    | some p => rw [hm] at h; obtain ⟨p1, p2⟩ := p; cases h
    | none =>
      rw [hm] at h
      by_cases hg : s = getNotesLit
      · rw [if_pos hg] at h; cases h
      · rw [if_neg hg] at h
        cases hgn : matchGetNote s with
        | some n => rw [hgn] at h; cases h; rfl
        | none => rw [hgn] at h; cases h
  · intro h
    have hs : s = getForm x := ((matchGetNote_some_iff s x).mp h).1
    unfold parseCommand
    rw [show matchAddNote s = none from hs ▸ matchAddNote_getForm x]
    rw [if_neg (show ¬ s = getNotesLit from hs ▸ getLit1_ne_getNotesLit _), h]

/-! ### Stripping lemmas -/

theorem dropWhile_cons_nospace {c : Char} (u : List Char)
    (hc : isPySpace c = false) : (c :: u).dropWhile isPySpace = c :: u :=
  List.dropWhile_cons_of_neg (by simp [hc])

theorem dropWhile_append_mid (p : Char → Bool) (x : List Char) (a : Char)
    (y : List Char) (ha : p a = false) :
    (x ++ a :: y).dropWhile p = x.dropWhile p ++ a :: y := by
  induction x with
  | nil => simp [List.dropWhile_cons, ha]
  | cons c x' ih =>
    by_cases hc : p c = true
    · simp only [List.cons_append, List.dropWhile_cons_of_pos hc, ih]
    · rw [List.cons_append, List.dropWhile_cons_of_neg (by simp_all),
        List.dropWhile_cons_of_neg (by simp_all), List.cons_append]

theorem rstrip_append_mid (u : List Char) (a : Char) (v : List Char)
    (ha : isPySpace a = false) :
    rstrip ((u ++ [a]) ++ v) = (u ++ [a]) ++ rstrip v := by
  unfold rstrip
  rw [show ((u ++ [a]) ++ v).reverse = v.reverse ++ a :: u.reverse from by simp]
  rw [dropWhile_append_mid isPySpace v.reverse a u.reverse ha]
  simp

theorem dropWhile_idem (p : Char → Bool) (s : List Char) :
    (s.dropWhile p).dropWhile p = s.dropWhile p := by
  induction s with
  | nil => rfl
  | cons c t ih =>
    by_cases hc : p c = true
    · rw [List.dropWhile_cons_of_pos hc]; exact ih
    · rw [List.dropWhile_cons_of_neg (by simp_all),
        List.dropWhile_cons_of_neg (by simp_all)]

theorem rstrip_idem (s : List Char) : rstrip (rstrip s) = rstrip s := by
  unfold rstrip
  rw [List.reverse_reverse, dropWhile_idem]

theorem dropWhile_rstrip_comm (s : List Char) :
    (rstrip s).dropWhile isPySpace = rstrip (s.dropWhile isPySpace) := by
  induction s with
  | nil => rfl
  | cons a t ih =>
    by_cases ha : isPySpace a = true
    · rw [List.dropWhile_cons_of_pos ha, ← ih]
      unfold rstrip
      rw [List.reverse_cons, List.dropWhile_append]
      cases hv : t.reverse.dropWhile isPySpace with
      | nil =>
        simp [List.dropWhile_cons, ha]
      | cons b w =>
        simp only [List.isEmpty_cons, Bool.false_eq_true, if_false]
        rw [show ((b :: w) ++ [a]).reverse = a :: (b :: w).reverse from by simp]
        rw [List.dropWhile_cons_of_pos ha]
    · rw [List.dropWhile_cons_of_neg (by simp_all)]
      unfold rstrip
      rw [List.reverse_cons,
        dropWhile_append_mid isPySpace t.reverse a [] (by simp_all)]
      rw [show (t.reverse.dropWhile isPySpace ++ a :: []).reverse
          = a :: (t.reverse.dropWhile isPySpace).reverse from by simp]
      rw [List.dropWhile_cons_of_neg (by simp_all)]

theorem rstrip_nil : rstrip [] = [] := rfl

theorem pyStrip_cons_append_end (c : Char) (u : List Char) (d : Char)
    (hc : isPySpace c = false) (hd : isPySpace d = false) :
    pyStrip (c :: (u ++ [d])) = c :: (u ++ [d]) := by
  unfold pyStrip
  rw [dropWhile_cons_nospace _ hc]
  rw [show c :: (u ++ [d]) = ((c :: u) ++ [d]) ++ [] from by simp]
  rw [rstrip_append_mid (c :: u) d [] hd, rstrip_nil]

theorem addForm_shape (n t : List Char) : addForm n t
    = '<' :: (("add-note name=\"".data
        ++ (n ++ (addLit2 ++ (t ++ ['"', '/'])))) ++ ['>']) := by
  rw [addForm, show addLit1 = '<' :: "add-note name=\"".data from rfl,
    show quoteClose = ['"', '/'] ++ ['>'] from rfl]
  simp [List.append_assoc]

theorem getForm_shape (n : List Char) : getForm n
    = '<' :: (("get-note name=\"".data ++ (n ++ ['"', '/'])) ++ ['>']) := by
  rw [getForm, show getLit1 = '<' :: "get-note name=\"".data from rfl,
    show quoteClose = ['"', '/'] ++ ['>'] from rfl]
  simp [List.append_assoc]

theorem pyStrip_addForm (n t : List Char) :
    pyStrip (addForm n t) = addForm n t := by
  rw [addForm_shape]
  exact pyStrip_cons_append_end _ _ _ (by decide) (by decide)

theorem pyStrip_getForm (n : List Char) :
    pyStrip (getForm n) = getForm n := by
  rw [getForm_shape]
  exact pyStrip_cons_append_end _ _ _ (by decide) (by decide)

/-! ### Store lemmas -/

theorem keyMem_false_iff (n : List Char) (st : Notes) :
    keyMem n st = false ↔ n ∉ st.map Prod.fst := by
  induction st with
  | nil => simp [keyMem]
  | cons p t ih =>
    by_cases h : p.1 = n
    · simp [keyMem, h]
    · simp [keyMem, h, ih, Ne.symm h]

theorem keyMem_append (n : List Char) (a b : Notes) :
    keyMem n (a ++ b) = (keyMem n a || keyMem n b) := by
  induction a with
  | nil => simp [keyMem]
  | cons p t ih =>
    by_cases h : p.1 = n
    · simp [keyMem, h]
    · simp [keyMem, h, ih]

theorem lookupNote_eq_none_iff (n : List Char) (st : Notes) :
    lookupNote n st = none ↔ keyMem n st = false := by
  induction st with
  | nil => simp [lookupNote, keyMem]
  | cons p t ih =>
    by_cases h : p.1 = n
    · simp [lookupNote, keyMem, h]
    · simp [lookupNote, keyMem, h, ih]

theorem lookupNote_append_self (n t : List Char) (st : Notes)
    (h : keyMem n st = false) :
    lookupNote n (st ++ [(n, t)]) = some t := by
  induction st with
  | nil => simp [lookupNote]
  | cons p s ih =>
    rw [keyMem] at h
    by_cases hp : p.1 = n
    · rw [if_pos hp] at h; cases h
    · rw [if_neg hp] at h
      rw [List.cons_append, lookupNote, if_neg hp]
      exact ih h

/-! ### Escaping lemmas -/

theorem replaceChar_append (c : Char) (rep u v : List Char) :
    replaceChar c rep (u ++ v) = replaceChar c rep u ++ replaceChar c rep v := by
  induction u with
  | nil => simp [replaceChar]
  | cons a u' ih => simp [replaceChar, ih, List.append_assoc]

theorem escapeText_append (u v : List Char) :
    escapeText (u ++ v) = escapeText u ++ escapeText v := by
  simp [escapeText, replaceChar_append]

theorem escapeText_nil : escapeText [] = [] := rfl

theorem escapeText_single (a : Char) : escapeText [a] = escChar a := by
  by_cases h1 : a = '&'
  · subst h1; decide
  by_cases h2 : a = '<'
  · subst h2; decide
  by_cases h3 : a = '>'
  · subst h3; decide
  by_cases h4 : a = '"'
  · subst h4; decide
  by_cases h5 : a = '\x27'
  · subst h5; decide
  simp [escapeText, replaceChar, escChar, h1, h2, h3, h4, h5]

theorem escapeText_cons (a : Char) (t : List Char) :
    escapeText (a :: t) = escChar a ++ escapeText t := by
  rw [show a :: t = [a] ++ t from rfl, escapeText_append, escapeText_single]

theorem unescape_amp (w : List Char) :
    unescapeText ('&' :: 'a' :: 'm' :: 'p' :: ';' :: w) = '&' :: unescapeText w := rfl

theorem unescape_lt (w : List Char) :
    unescapeText ('&' :: 'l' :: 't' :: ';' :: w) = '<' :: unescapeText w := rfl

theorem unescape_gt (w : List Char) :
    unescapeText ('&' :: 'g' :: 't' :: ';' :: w) = '>' :: unescapeText w := rfl

theorem unescape_quot (w : List Char) :
    unescapeText ('&' :: 'q' :: 'u' :: 'o' :: 't' :: ';' :: w)
      = '"' :: unescapeText w := rfl

theorem unescape_apos (w : List Char) :
    unescapeText ('&' :: 'a' :: 'p' :: 'o' :: 's' :: ';' :: w)
      = '\x27' :: unescapeText w := rfl

theorem unescape_cons_ne (a : Char) (w : List Char) (h : a ≠ '&') :
    unescapeText (a :: w) = a :: unescapeText w := by
  conv_lhs => unfold unescapeText
  rw [if_neg h]

theorem unescape_escape (t : List Char) : unescapeText (escapeText t) = t := by
  induction t with
  | nil => rw [escapeText_nil]; rfl
  | cons a t ih =>
    rw [escapeText_cons]
    by_cases h1 : a = '&'
    · subst h1
      rw [show escChar '&' ++ escapeText t
          = '&' :: 'a' :: 'm' :: 'p' :: ';' :: escapeText t from rfl]
      rw [unescape_amp, ih]
    by_cases h2 : a = '<'
    · subst h2
      rw [show escChar '<' ++ escapeText t
          = '&' :: 'l' :: 't' :: ';' :: escapeText t from rfl]
      rw [unescape_lt, ih]
    by_cases h3 : a = '>'
    · subst h3
      rw [show escChar '>' ++ escapeText t
          = '&' :: 'g' :: 't' :: ';' :: escapeText t from rfl]
      rw [unescape_gt, ih]
    by_cases h4 : a = '"'
    · subst h4
      rw [show escChar '"' ++ escapeText t
          = '&' :: 'q' :: 'u' :: 'o' :: 't' :: ';' :: escapeText t from rfl]
      rw [unescape_quot, ih]
    by_cases h5 : a = '\x27'
    · subst h5
      rw [show escChar '\x27' ++ escapeText t
          = '&' :: 'a' :: 'p' :: 'o' :: 's' :: ';' :: escapeText t from rfl]
      rw [unescape_apos, ih]
    rw [show escChar a = [a] from by simp [escChar, h1, h2, h3, h4, h5]]
    rw [List.singleton_append, unescape_cons_ne a _ h1, ih]

theorem wellEscaped_amp (w : List Char) :
    wellEscaped ('&' :: 'a' :: 'm' :: 'p' :: ';' :: w) = wellEscaped w := rfl

theorem wellEscaped_lt (w : List Char) :
    wellEscaped ('&' :: 'l' :: 't' :: ';' :: w) = wellEscaped w := rfl

theorem wellEscaped_gt (w : List Char) :
    wellEscaped ('&' :: 'g' :: 't' :: ';' :: w) = wellEscaped w := rfl

theorem wellEscaped_quot (w : List Char) :
    wellEscaped ('&' :: 'q' :: 'u' :: 'o' :: 't' :: ';' :: w) = wellEscaped w := rfl

theorem wellEscaped_apos (w : List Char) :
    wellEscaped ('&' :: 'a' :: 'p' :: 'o' :: 's' :: ';' :: w) = wellEscaped w := rfl

theorem wellEscaped_cons_ord (a : Char) (w : List Char) (h1 : a ≠ '&')
    (h2 : a ≠ '<') (h3 : a ≠ '>') (h4 : a ≠ '"') (h5 : a ≠ '\x27') :
    wellEscaped (a :: w) = wellEscaped w := by
  conv_lhs => unfold wellEscaped
  rw [if_neg h1, if_neg (by simp [h2, h3, h4, h5])]

theorem wellEscaped_escape (t : List Char) : wellEscaped (escapeText t) = true := by
  induction t with
  | nil => rw [escapeText_nil]; rfl
  | cons a t ih =>
    rw [escapeText_cons]
    by_cases h1 : a = '&'
    · subst h1
      rw [show escChar '&' ++ escapeText t
          = '&' :: 'a' :: 'm' :: 'p' :: ';' :: escapeText t from rfl]
      rw [wellEscaped_amp, ih]
    by_cases h2 : a = '<'
    · subst h2
      rw [show escChar '<' ++ escapeText t
          = '&' :: 'l' :: 't' :: ';' :: escapeText t from rfl]
      rw [wellEscaped_lt, ih]
    by_cases h3 : a = '>'
    · subst h3
      rw [show escChar '>' ++ escapeText t
          = '&' :: 'g' :: 't' :: ';' :: escapeText t from rfl]
      rw [wellEscaped_gt, ih]
    by_cases h4 : a = '"'
    · subst h4
      rw [show escChar '"' ++ escapeText t
          = '&' :: 'q' :: 'u' :: 'o' :: 't' :: ';' :: escapeText t from rfl]
      rw [wellEscaped_quot, ih]
    by_cases h5 : a = '\x27'
    · subst h5
      rw [show escChar '\x27' ++ escapeText t
          = '&' :: 'a' :: 'p' :: 'o' :: 's' :: ';' :: escapeText t from rfl]
      rw [wellEscaped_apos, ih]
    rw [show escChar a = [a] from by simp [escChar, h1, h2, h3, h4, h5]]
    rw [List.singleton_append, wellEscaped_cons_ord a _ h1 h2 h3 h4 h5, ih]

theorem escapeText_eq_self (t : List Char)
    (h : ∀ c ∈ t, c ≠ '&' ∧ c ≠ '<' ∧ c ≠ '>' ∧ c ≠ '"' ∧ c ≠ '\x27') :
    escapeText t = t := by
  induction t with
  | nil => rfl
  | cons a t ih =>
    rw [escapeText_cons]
    obtain ⟨h1, h2, h3, h4, h5⟩ := h a (by simp)
    rw [show escChar a = [a] from by simp [escChar, h1, h2, h3, h4, h5]]
    rw [List.singleton_append, ih (fun c hc => h c (by simp [hc]))]

theorem escape_no_raw (t : List Char) : ∀ c ∈ escapeText t,
    c ≠ '<' ∧ c ≠ '>' ∧ c ≠ '"' ∧ c ≠ '\x27' := by
  induction t with
  | nil => rw [escapeText_nil]; simp
  | cons a t ih =>
    rw [escapeText_cons]
    intro c hc
    rcases List.mem_append.mp hc with hl | hr
    · by_cases h1 : a = '&'
      · subst h1
        rw [show escChar '&' = ['&', 'a', 'm', 'p', ';'] from rfl] at hl
        simp only [List.mem_cons, List.not_mem_nil, or_false] at hl
        rcases hl with rfl | rfl | rfl | rfl | rfl <;> decide
      by_cases h2 : a = '<'
      · subst h2
        rw [show escChar '<' = ['&', 'l', 't', ';'] from rfl] at hl
        simp only [List.mem_cons, List.not_mem_nil, or_false] at hl
        rcases hl with rfl | rfl | rfl | rfl <;> decide
      by_cases h3 : a = '>'
      · subst h3
        rw [show escChar '>' = ['&', 'g', 't', ';'] from rfl] at hl
        simp only [List.mem_cons, List.not_mem_nil, or_false] at hl
        rcases hl with rfl | rfl | rfl | rfl <;> decide
      by_cases h4 : a = '"'
      · subst h4
        rw [show escChar '"' = ['&', 'q', 'u', 'o', 't', ';'] from rfl] at hl
        simp only [List.mem_cons, List.not_mem_nil, or_false] at hl
        rcases hl with rfl | rfl | rfl | rfl | rfl | rfl <;> decide
      by_cases h5 : a = '\x27'
      · subst h5
        rw [show escChar '\x27' = ['&', 'a', 'p', 'o', 's', ';'] from rfl] at hl
        simp only [List.mem_cons, List.not_mem_nil, or_false] at hl
        rcases hl with rfl | rfl | rfl | rfl | rfl | rfl <;> decide
      rw [show escChar a = [a] from by simp [escChar, h1, h2, h3, h4, h5]] at hl
      rcases List.mem_singleton.mp hl with rfl
      exact ⟨h2, h3, h4, h5⟩
    · exact ih c hr

/-! ### Think-block stripping lemmas -/

theorem dropLitCI_self_append (p r : List Char) : dropLitCI p (p ++ r) = some r := by
  induction p with
  | nil => rfl
  | cons a ps ih =>
    rw [List.cons_append]
    unfold dropLitCI
    rw [if_pos (by simp [ciEq])]
    exact ih

theorem dropLitCI_straddle_none (ps : List Char)
    (hps : ∀ c ∈ ps, ciEq c '<' = false) :
    ∀ (u rest : List Char), u.length < ps.length →
      dropLitCI ps (u ++ '<' :: rest) = none := by
  induction ps with
  | nil => intro u rest h; exact absurd h (by simp)
  | cons p ps' ih =>
    intro u rest h
    cases u with
    | nil =>
      rw [List.nil_append]
      unfold dropLitCI
      rw [if_neg (by simp [hps p (by simp)])]
    | cons a u' =>
      rw [List.cons_append]
      unfold dropLitCI
      by_cases hc : ciEq p a = true
      · rw [if_pos hc]
        exact ih (fun c hc' => hps c (by simp [hc'])) u' rest
          (by simpa using Nat.lt_of_succ_lt_succ (by simpa using h))
      · rw [if_neg (by simp_all)]

theorem dropLitCI_none_extend (ps : List Char) :
    ∀ (u v : List Char), ps.length ≤ u.length → dropLitCI ps u = none →
      dropLitCI ps (u ++ v) = none := by
  induction ps with
  | nil => intro u v _ h; exact absurd h (by simp [dropLitCI])
  | cons p ps' ih =>
    intro u v hlen h
    cases u with
    | nil => exact absurd hlen (by simp)
    | cons a u' =>
      rw [List.cons_append]
      unfold dropLitCI
      unfold dropLitCI at h
      by_cases hc : ciEq p a = true
      · rw [if_pos hc] at h ⊢
        exact ih u' v (by simpa using hlen) h
      · rw [if_neg (by simp_all)]

theorem hasOccurCI_cons_false {pat c rest}
    (h : hasOccurCI pat (c :: rest) = false) :
    dropLitCI pat (c :: rest) = none ∧ hasOccurCI pat rest = false := by
  unfold hasOccurCI at h
  obtain ⟨h1, h2⟩ := Bool.or_eq_false_iff.mp h
  refine ⟨?_, h2⟩
  cases hx : dropLitCI pat (c :: rest) with
  | none => rfl
  | some r => rw [hx] at h1; cases h1

theorem findClose_append (b : List Char) (w : List Char)
    (hb : hasOccurCI thinkClose b = false) :
    findClose (b ++ (thinkClose ++ w)) = some w := by
  induction b with
  | nil =>
    rw [List.nil_append]
    rw [show thinkClose ++ w = '<' :: ("/think>".data ++ w) from rfl]
    unfold findClose
    rw [show dropLitCI thinkClose ('<' :: ("/think>".data ++ w)) = some w from by
      rw [show ('<' : Char) :: ("/think>".data ++ w) = thinkClose ++ w from rfl]
      exact dropLitCI_self_append _ _]
  | cons a b' ih =>
    obtain ⟨hb1, hb2⟩ := hasOccurCI_cons_false hb
    rw [List.cons_append]
    unfold findClose
    have hnone : dropLitCI thinkClose (a :: (b' ++ (thinkClose ++ w))) = none := by
      by_cases hlen : thinkClose.length ≤ (a :: b').length
      · rw [show a :: (b' ++ (thinkClose ++ w))
            = (a :: b') ++ (thinkClose ++ w) from rfl]
        exact dropLitCI_none_extend thinkClose (a :: b') (thinkClose ++ w)
          hlen hb1
      · rw [show thinkClose = '<' :: "/think>".data from rfl]
        unfold dropLitCI
        by_cases hc : ciEq '<' a = true
        · rw [if_pos hc]
          refine dropLitCI_straddle_none "/think>".data (by decide) b' _ ?_
          have : (a :: b').length < thinkClose.length := Nat.lt_of_not_le hlen
          simpa using Nat.lt_of_succ_lt_succ
            (by simpa [thinkClose] using this)
        · rw [if_neg (by simp_all)]
    rw [hnone]
    exact ih hb2

theorem stripThink_block (b v : List Char)
    (hb : hasOccurCI thinkClose b = false) :
    stripThink (thinkOpen ++ (b ++ (thinkClose ++ v)))
      = v.dropWhile isPySpace := by
  have hdl : dropLitCI thinkOpen
      ((thinkOpen ++ (b ++ (thinkClose ++ v))).dropWhile isPySpace)
      = some (b ++ (thinkClose ++ v)) := by
    rw [show thinkOpen ++ (b ++ (thinkClose ++ v))
        = '<' :: ("think>".data ++ (b ++ (thinkClose ++ v))) from rfl]
    rw [dropWhile_cons_nospace _ (by decide)]
    rw [show ('<' : Char) :: ("think>".data ++ (b ++ (thinkClose ++ v)))
        = thinkOpen ++ (b ++ (thinkClose ++ v)) from rfl]
    exact dropLitCI_self_append _ _
  unfold stripThink
  simp only [hdl, findClose_append b v hb]

theorem pyStrip_idem (s : List Char) : pyStrip (pyStrip s) = pyStrip s := by
  unfold pyStrip
  rw [dropWhile_rstrip_comm, dropWhile_idem, rstrip_idem]

theorem normalize_think_block (b c : List Char)
    (hb : hasOccurCI thinkClose b = false) :
    normalizeOutput (thinkOpen ++ (b ++ (thinkClose ++ c))) = pyStrip c := by
  unfold normalizeOutput
  have h1 : pyStrip (thinkOpen ++ (b ++ (thinkClose ++ c)))
      = thinkOpen ++ (b ++ (thinkClose ++ rstrip c)) := by
    unfold pyStrip
    rw [show thinkOpen ++ (b ++ (thinkClose ++ c))
        = '<' :: ("think>".data ++ (b ++ (thinkClose ++ c))) from rfl]
    rw [dropWhile_cons_nospace _ (by decide)]
    rw [show ('<' : Char) :: ("think>".data ++ (b ++ (thinkClose ++ c)))
        = ((thinkOpen ++ b ++ "</think".data) ++ ['>']) ++ c from by
      simp [thinkOpen, thinkClose, List.append_assoc]]
    rw [rstrip_append_mid _ '>' c (by decide)]
    simp [thinkOpen, thinkClose, List.append_assoc]
  rw [h1, stripThink_block b (rstrip c) hb]
  unfold pyStrip
  rw [dropWhile_idem, dropWhile_rstrip_comm, rstrip_idem]

/-! ### Evaluation lemmas for `process_command` -/

theorem process_addForm (n t : List Char) (st : Notes) (hn : n ≠ [])
    (hqn : '"' ∉ n) (hqt : '"' ∉ t) :
    process_command (addForm n t) st
      = if keyMem n st then (dupError n, st)
        else (noteAdded n, st ++ [(n, t)]) := by
  unfold process_command
  rw [pyStrip_addForm]
  simp only [(parseCommand_eq_addNote_iff (addForm n t) n t).mpr
    ⟨rfl, hn, hqn, hqt⟩]

theorem process_getForm (n : List Char) (st : Notes) (hn : n ≠ [])
    (hqn : '"' ∉ n) :
    process_command (getForm n) st
      = match lookupNote n st with
        | some t => (noteContentResp n (escapeText t), st)
        | none => (noteNotFound, st) := by
  unfold process_command
  rw [pyStrip_getForm]
  simp only [(parseCommand_eq_getNote_iff (getForm n) n).mpr ⟨rfl, hn, hqn⟩]

theorem process_getNotes (st : Notes) :
    process_command getNotesLit st
      = if st = [] then (emptyListResp, st)
        else (notesListResp (joinComma (st.map Prod.fst)), st) := by
  unfold process_command
  rw [show pyStrip getNotesLit = getNotesLit from by decide]
  simp only [(parseCommand_eq_getNotes_iff getNotesLit).mpr rfl]

theorem process_malformed (s : List Char) (st : Notes)
    (h : parseCommand (pyStrip s) = Command.malformed) :
    process_command s st = (malformedError, st) := by
  unfold process_command
  simp only [h]

theorem addAll_fresh : ∀ (l : List (List Char × List Char)) (st : Notes),
    (∀ p ∈ l, p.1 ≠ [] ∧ '"' ∉ p.1 ∧ '"' ∉ p.2) →
    (∀ p ∈ l, keyMem p.1 st = false) →
    (l.map Prod.fst).Nodup →
    addAll l st = st ++ l := by
  intro l
  induction l with
  | nil => intro st _ _ _; simp [addAll]
  | cons p l' ih =>
    intro st hv hf hd
    obtain ⟨h1, h2, h3⟩ := hv p (by simp)
    have hfp : keyMem p.1 st = false := hf p (by simp)
    have hp : (process_command (addForm p.1 p.2) st).2 = st ++ [(p.1, p.2)] := by
      rw [process_addForm p.1 p.2 st h1 h2 h3, hfp]
      simp
    unfold addAll
    rw [List.foldl_cons]
    have hstep : addAll l' ((process_command (addForm p.1 p.2) st).2)
        = (st ++ [(p.1, p.2)]) ++ l' := by
      rw [hp]
      refine ih (st ++ [(p.1, p.2)]) (fun q hq => hv q (by simp [hq]))
        (fun q hq => ?_) (by simpa using hd.of_cons)
      rw [keyMem_append, hf q (by simp [hq])]
      have hne : p.1 ≠ q.1 := by
        intro he
        have : p.1 ∈ l'.map Prod.fst := he ▸ List.mem_map_of_mem Prod.fst hq
        exact (List.nodup_cons.mp (by simpa using hd)).1 this
      simp [keyMem, hne]
    rw [show List.foldl
        (fun acc q => (process_command (addForm q.1 q.2) acc).2)
        ((process_command (addForm p.1 p.2) st).2) l'
        = addAll l' ((process_command (addForm p.1 p.2) st).2) from rfl]
    rw [hstep]
    simp

/-! ### Claim theorems -/

/-- Claim C1: for every name `N` not present in the store and every text `T`
(well-formed per the grammar: `N` non-empty, no double quote in `N` or `T`),
executing `<add-note name="N" text="T"/>` succeeds returning
`<note-added name="N"/>` and stores `T` unchanged, and a subsequent
`<get-note name="N"/>` renders the note-content response from which `T` is
recovered unchanged (the rendering applies the documented serialization
escaping, whose inverse unescape restores `T` exactly; when `T` contains no
escapable character it appears literally unchanged). -/
theorem claim_c1_add_get_roundtrip (st : Notes) (n t : List Char)
    (hn : n ≠ []) (hqn : '"' ∉ n) (hqt : '"' ∉ t)
    (hfresh : keyMem n st = false) :
    process_command (addForm n t) st = (noteAdded n, st ++ [(n, t)]) ∧
    process_command (getForm n) (st ++ [(n, t)])
      = (noteContentResp n (escapeText t), st ++ [(n, t)]) ∧
    unescapeText (escapeText t) = t ∧
    ((∀ c ∈ t, c ≠ '&' ∧ c ≠ '<' ∧ c ≠ '>' ∧ c ≠ '"' ∧ c ≠ '\x27') →
      escapeText t = t) := by
  refine ⟨?_, ?_, unescape_escape t, escapeText_eq_self t⟩
  · rw [process_addForm n t st hn hqn hqt, hfresh]
    simp
  · rw [process_getForm n _ hn hqn, lookupNote_append_self n t st hfresh]

theorem claim_c1_witness :
    process_command (addForm ['a'] "h&i".data) []
        = (noteAdded ['a'], [(['a'], "h&i".data)]) ∧
    process_command (getForm ['a']) [(['a'], "h&i".data)]
        = (noteContentResp ['a'] (escapeText "h&i".data), [(['a'], "h&i".data)]) ∧
    unescapeText (escapeText "h&i".data) = "h&i".data :=
  have h := claim_c1_add_get_roundtrip [] ['a'] "h&i".data
    (by decide) (by decide) (by decide) (by decide)
  ⟨h.1, h.2.1, h.2.2.1⟩

/-- Claim C2: for every store and every name `N` already present in it
(well-formed per the grammar), `<add-note name="N" text="T2"/>` returns
exactly `<error reason="Note name 'N' already exists."/>` and leaves the
store unchanged, so the store still holds only the first value stored under
`N`. -/
theorem claim_c2_duplicate_add (st : Notes) (n t2 : List Char)
    (hn : n ≠ []) (hqn : '"' ∉ n) (hqt : '"' ∉ t2)
    (hmem : keyMem n st = true) :
    process_command (addForm n t2) st = (dupError n, st) ∧
    lookupNote n (process_command (addForm n t2) st).2 = lookupNote n st := by
  have h : process_command (addForm n t2) st = (dupError n, st) := by
    rw [process_addForm n t2 st hn hqn hqt, hmem]
    simp
  exact ⟨h, by rw [h]⟩

theorem claim_c2_witness :
    process_command (addForm ['a'] ['y']) [(['a'], ['x'])]
        = (dupError ['a'], [(['a'], ['x'])]) ∧
    lookupNote ['a'] (process_command (addForm ['a'] ['y']) [(['a'], ['x'])]).2
        = lookupNote ['a'] [(['a'], ['x'])] :=
  claim_c2_duplicate_add [(['a'], ['x'])] ['a'] ['y']
    (by decide) (by decide) (by decide) (by decide)

/-- Claim C3: the text rendered inside a note-content response is the stored
text with the source's replacement chain applied in the exact order
`&`→`&amp;`, `<`→`&lt;`, `>`→`&gt;`, `"`→`&quot;`, `'`→`&apos;`; the rendered
text contains no raw occurrence of those characters outside their escaped
forms, and the inverse unescape recovers the stored text exactly.  Escaping
happens only at serialization: the store is returned unchanged, still holding
the raw text. -/
theorem claim_c3_escaping (st : Notes) (n t : List Char)
    (hn : n ≠ []) (hqn : '"' ∉ n) (hlook : lookupNote n st = some t) :
    process_command (getForm n) st = (noteContentResp n (escapeText t), st) ∧
    escapeText t
      = replaceChar '\x27' "&apos;".data
          (replaceChar '"' "&quot;".data
            (replaceChar '>' "&gt;".data
              (replaceChar '<' "&lt;".data
                (replaceChar '&' "&amp;".data t)))) ∧
    wellEscaped (escapeText t) = true ∧
    (∀ c ∈ escapeText t, c ≠ '<' ∧ c ≠ '>' ∧ c ≠ '"' ∧ c ≠ '\x27') ∧
    unescapeText (escapeText t) = t := by
  refine ⟨?_, rfl, wellEscaped_escape t, escape_no_raw t, unescape_escape t⟩
  rw [process_getForm n st hn hqn, hlook]

theorem claim_c3_witness :
    process_command (getForm ['a']) [(['a'], "a<b&c".data)]
        = (noteContentResp ['a'] (escapeText "a<b&c".data), [(['a'], "a<b&c".data)]) ∧
    wellEscaped (escapeText "a<b&c".data) = true ∧
    unescapeText (escapeText "a<b&c".data) = "a<b&c".data :=
  have h := claim_c3_escaping [(['a'], "a<b&c".data)] ['a'] "a<b&c".data
    (by decide) (by decide) (by decide)
  ⟨h.1, h.2.2.1, h.2.2.2.2⟩

/-- Claim C4: `<get-notes/>` on an empty store returns
`<notes-list names=""/>` (an empty comma-joined list, not an error); after
`k` distinct successful adds (distinct well-formed names, all from the empty
store) the store holds exactly those `k` pairs in insertion order and
`<get-notes/>` returns their names, each exactly once, comma-joined in the
order they were added. -/
theorem claim_c4_list_notes (l : List (List Char × List Char))
    (hv : ∀ p ∈ l, p.1 ≠ [] ∧ '"' ∉ p.1 ∧ '"' ∉ p.2)
    (hd : (l.map Prod.fst).Nodup) :
    process_command getNotesLit [] = (emptyListResp, []) ∧
    addAll l [] = l ∧
    process_command getNotesLit (addAll l [])
      = (notesListResp (joinComma (l.map Prod.fst)), l) := by
  have ha : addAll l [] = l := by
    simpa using addAll_fresh l [] hv (fun p _ => rfl) hd
  refine ⟨by decide, ha, ?_⟩
  rw [ha, process_getNotes l]
  by_cases hl : l = []
  · subst hl
    simp only [if_pos rfl]
    exact Prod.ext (by decide) rfl
  · rw [if_neg hl]

theorem claim_c4_witness :
    addAll [(['a'], ['x']), (['b'], ['y'])] [] = [(['a'], ['x']), (['b'], ['y'])] ∧
    process_command getNotesLit (addAll [(['a'], ['x']), (['b'], ['y'])] [])
      = (notesListResp (joinComma [['a'], ['b']]), [(['a'], ['x']), (['b'], ['y'])]) ∧
    process_command getNotesLit [] = (emptyListResp, []) :=
  have h := claim_c4_list_notes [(['a'], ['x']), (['b'], ['y'])]
    (by decide) (by decide)
  ⟨h.2.1, h.2.2, h.1⟩

/-- Claim C5: classification of the whitespace-trimmed input is whole-string
and form-exact: `<add-note name="X" text="Y"/>` (with `X` one-or-more
non-quote characters and `Y` zero-or-more non-quote characters),
the exact literal `<get-notes/>`, and `<get-note name="X"/>` are the only
recognized forms, and any input whose trimmed form is none of them yields
`<error reason="Unknown or malformed command."/>` with the store unchanged. -/
theorem claim_c5_classification (s : List Char) (st : Notes) (x y : List Char) :
    (parseCommand s = Command.addNote x y ↔
      s = addForm x y ∧ x ≠ [] ∧ '"' ∉ x ∧ '"' ∉ y) ∧
    (parseCommand s = Command.getNotes ↔ s = getNotesLit) ∧
    (parseCommand s = Command.getNote x ↔ s = getForm x ∧ x ≠ [] ∧ '"' ∉ x) ∧
    (parseCommand (pyStrip s) = Command.malformed →
      process_command s st = (malformedError, st)) :=
  ⟨parseCommand_eq_addNote_iff s x y, parseCommand_eq_getNotes_iff s,
    parseCommand_eq_getNote_iff s x, process_malformed s st⟩

theorem claim_c5_witness :
    parseCommand (addForm ['a'] ['b']) = Command.addNote ['a'] ['b'] ∧
    parseCommand getNotesLit = Command.getNotes ∧
    parseCommand (getForm ['a']) = Command.getNote ['a'] ∧
    process_command "hello".data [] = (malformedError, []) :=
  ⟨((claim_c5_classification (addForm ['a'] ['b']) [] ['a'] ['b']).1).mpr
      ⟨rfl, by decide, by decide, by decide⟩,
    ((claim_c5_classification getNotesLit [] [] []).2.1).mpr rfl,
    ((claim_c5_classification (getForm ['a']) [] ['a'] []).2.2.1).mpr
      ⟨rfl, by decide, by decide⟩,
    (claim_c5_classification "hello".data [] [] []).2.2.2 (by decide)⟩

/-- Claim C6: whenever the normalized model output begins with the
case-insensitive role marker `assistant>` (with optional surrounding
whitespace), the turn produces exactly the fixed protocol-violation error
response, the interpreter is not invoked (the response is the fixed one
regardless of what follows the marker), and the note store is unchanged. -/
theorem claim_c6_assistant_marker (raw : List Char) (st : Notes)
    (h : hasAssistantMarker (normalizeOutput raw) = true) :
    runTurn raw st = (invalidFormatError, st) := by
  unfold runTurn
  simp only [h, if_true]

theorem claim_c6_witness :
    runTurn "assistant> <get-notes/>".data [(['a'], ['b'])]
      = (invalidFormatError, [(['a'], ['b'])]) :=
  claim_c6_assistant_marker _ _ (by decide)

/-- Claim C7 as frozen is false: the reasoning-block regex matches lazily up
to the first closing tag, so a block body that itself contains a closing
`</think>` (first input) terminates the block early, and a single strip is
applied, so a command string that itself begins with a reasoning block
(second input) is not stripped again; in both cases processing the composite
differs from processing the trailing command alone. -/
theorem claim_c7_counterexample :
    ("<think></think>x</think><get-notes/>".data : List Char)
        = thinkOpen ++ ("</think>x".data ++ (thinkClose ++ "<get-notes/>".data)) ∧
    runTurn "<think></think>x</think><get-notes/>".data []
      ≠ runTurn "<get-notes/>".data [] ∧
    ("<think>b</think><think>x</think><get-notes/>".data : List Char)
        = thinkOpen ++ ("b".data ++ (thinkClose ++ "<think>x</think><get-notes/>".data)) ∧
    runTurn "<think>b</think><think>x</think><get-notes/>".data []
      ≠ runTurn "<think>x</think><get-notes/>".data [] :=
  ⟨by decide, by decide, by decide, by decide⟩

/-- Claim C7 (amended): a single leading reasoning block is fully removed
before marker detection and command execution, so for every command string
`c` and block body `b`, PROVIDED the body contains no (case-insensitive)
occurrence of the closing tag and `c` does not itself begin with a reasoning
block, processing `<think>` + `b` + `</think>` + `c` yields the same response
and store as processing `c` alone. -/
theorem claim_c7_think_strip (b c : List Char) (st : Notes)
    (hb : hasOccurCI thinkClose b = false)
    (hc : stripThink (pyStrip c) = pyStrip c) :
    runTurn (thinkOpen ++ (b ++ (thinkClose ++ c))) st = runTurn c st := by
  unfold runTurn
  rw [normalize_think_block b c hb]
  rw [show normalizeOutput c = pyStrip c from by
    unfold normalizeOutput; rw [hc, pyStrip_idem]]

theorem claim_c7_witness :
    runTurn (thinkOpen ++ ("ignore".data ++ (thinkClose ++ "<get-notes/>".data))) []
      = runTurn "<get-notes/>".data [] :=
  claim_c7_think_strip "ignore".data "<get-notes/>".data []
    (by decide) (by decide)

/-- Claim C8: for every store and every well-formed name `N` not present in
it, `<get-note name="N"/>` returns exactly
`<error reason="note_not_found"/>`, a reason string distinct from the generic
malformed-command error, and the store is unchanged. -/
theorem claim_c8_not_found (st : Notes) (n : List Char) (hn : n ≠ [])
    (hqn : '"' ∉ n) (habs : keyMem n st = false) :
    process_command (getForm n) st = (noteNotFound, st) ∧
    noteNotFound ≠ malformedError := by
  refine ⟨?_, by decide⟩
  rw [process_getForm n st hn hqn, (lookupNote_eq_none_iff n st).mpr habs]

theorem claim_c8_witness :
    process_command (getForm ['b']) [(['a'], ['x'])]
      = (noteNotFound, [(['a'], ['x'])]) ∧
    noteNotFound ≠ malformedError :=
  claim_c8_not_found [(['a'], ['x'])] ['b'] (by decide) (by decide) (by decide)

/-- Claim C9 as frozen is false for the explicitly supplied empty prompt:
Python's `if new_system_prompt:` is a truthiness test, so `clear("")` falls
through to the keep-existing-system-turn branch instead of installing a fresh
empty system turn; here the first turn is not a system turn, so the log comes
back empty rather than `[⟨system, ""⟩]`. -/
theorem claim_c9_counterexample :
    (resetSession [⟨"user", "u"⟩] [] (some "")).1 = [] ∧
    (resetSession [⟨"user", "u"⟩] [] (some "")).1 ≠ [⟨"system", ""⟩] :=
  ⟨by decide, by decide⟩

/-- Claim C9 (amended): reset empties the note store, and discards all notes
and all non-system conversation turns: with an explicitly supplied NON-EMPTY
new system prompt the log becomes exactly that one fresh system turn; with no
new prompt (or an empty one, which the truthiness test treats as absent), the
first turn is preserved verbatim when it is a system turn, and otherwise the
log is empty. -/
theorem claim_c9_reset (msgs : List Turn) (notes : Notes) (o : Option String) :
    (resetSession msgs notes o).2 = [] ∧
    (∀ p, o = some p → ¬ p.isEmpty = true →
      (resetSession msgs notes o).1 = [⟨"system", p⟩]) ∧
    ((o = none ∨ o = some "") →
      ((∀ m rest, msgs = m :: rest → m.role = "system" →
          (resetSession msgs notes o).1 = [m]) ∧
        (∀ m rest, msgs = m :: rest → m.role ≠ "system" →
          (resetSession msgs notes o).1 = []) ∧
        (msgs = [] → (resetSession msgs notes o).1 = []))) := by
  refine ⟨rfl, ?_, ?_⟩
  · rintro p rfl hp
    simp only [resetSession, clearConv]
    rw [if_neg hp]
  · intro ho
    refine ⟨?_, ?_, ?_⟩
    · rintro m rest rfl hm
      rcases ho with rfl | rfl <;>
        simp [resetSession, clearConv, keptSystem, hm,
          show ("" : String).isEmpty = true from rfl]
    · rintro m rest rfl hm
      rcases ho with rfl | rfl <;>
        simp [resetSession, clearConv, keptSystem, hm,
          show ("" : String).isEmpty = true from rfl]
    · rintro rfl
      rcases ho with rfl | rfl <;> rfl

theorem claim_c9_witness :
    (resetSession [⟨"user", "u"⟩] [(['a'], ['b'])] (some "S")).1
        = [⟨"system", "S"⟩] ∧
    (resetSession [⟨"user", "u"⟩] [(['a'], ['b'])] (some "S")).2 = [] ∧
    (resetSession [⟨"system", "s0"⟩, ⟨"user", "u"⟩] [] none).1
        = [⟨"system", "s0"⟩] :=
  have h1 := claim_c9_reset [⟨"user", "u"⟩] [(['a'], ['b'])] (some "S")
  have h2 := claim_c9_reset [⟨"system", "s0"⟩, ⟨"user", "u"⟩] [] none
  ⟨h1.2.1 "S" rfl (by decide), h1.1,
    (h2.2.2 (Or.inl rfl)).1 _ _ rfl (by decide)⟩

/-- Claim C10: every interpreter operation preserves the store invariant
(pairwise-distinct, non-empty, quote-free note names), and the store changes
only through a successful add whose parsed name satisfied the grammar; no
operation removes or renames a note. -/
theorem claim_c10_invariant (input : List Char) (st : Notes)
    (hinv : storeInv st) :
    storeInv (process_command input st).2 ∧
    ((process_command input st).2 = st ∨
      ∃ n t, parseCommand (pyStrip input) = Command.addNote n t ∧
        keyMem n st = false ∧ n ≠ [] ∧ '"' ∉ n ∧
        (process_command input st).2 = st ++ [(n, t)]) := by
  cases hp : parseCommand (pyStrip input) with
  | addNote n t =>
    obtain ⟨-, hn, hqn, -⟩ := (parseCommand_eq_addNote_iff _ n t).mp hp
    have he : process_command input st
        = if keyMem n st = true then (dupError n, st)
          else (noteAdded n, st ++ [(n, t)]) := by
      unfold process_command
      simp only [hp]
    by_cases hm : keyMem n st = true
    · rw [he, if_pos hm]
      exact ⟨hinv, Or.inl rfl⟩
    · have hm' : keyMem n st = false := by simpa using hm
      rw [he, if_neg hm]
      refine ⟨⟨?_, ?_⟩, Or.inr ⟨n, t, rfl, hm', hn, hqn, rfl⟩⟩
      · rw [show ((noteAdded n, st ++ [(n, t)]).2) = st ++ [(n, t)] from rfl]
        rw [List.map_append, List.nodup_append]
        refine ⟨hinv.1, by simp, ?_⟩
        intro a ha hb
        simp only [List.map_cons, List.map_nil, List.mem_singleton] at hb
        subst hb
        exact (keyMem_false_iff _ st).mp hm' ha
      · intro p hp'
        rcases List.mem_append.mp hp' with h | h
        · exact hinv.2 p h
        · simp only [List.mem_singleton] at h
          subst h
          exact ⟨hn, hqn⟩
  | getNotes =>
    have he : process_command input st
        = if st = [] then (emptyListResp, st)
          else (notesListResp (joinComma (st.map Prod.fst)), st) := by
      unfold process_command
      simp only [hp]
    by_cases hl : st = []
    · rw [he, if_pos hl]
      exact ⟨hinv, Or.inl rfl⟩
    · rw [he, if_neg hl]
      exact ⟨hinv, Or.inl rfl⟩
  | getNote n =>
    have he : process_command input st
        = match lookupNote n st with
          | some t => (noteContentResp n (escapeText t), st)
          | none => (noteNotFound, st) := by
      unfold process_command
      simp only [hp]
    cases hlk : lookupNote n st with
    | some t =>
      simp only [hlk] at he
      rw [he]
      exact ⟨hinv, Or.inl rfl⟩
    | none =>
      simp only [hlk] at he
      rw [he]
      exact ⟨hinv, Or.inl rfl⟩
  | malformed =>
    have he : process_command input st = (malformedError, st) := by
      unfold process_command
      simp only [hp]
    rw [he]
    exact ⟨hinv, Or.inl rfl⟩

theorem claim_c10_witness :
    storeInv (process_command "<add-note name=\"a\" text=\"x\"/>".data
      [(['b'], ['y'])]).2 :=
  (claim_c10_invariant "<add-note name=\"a\" text=\"x\"/>".data
    [(['b'], ['y'])] ⟨by decide, by decide⟩).1

end Researcher

